import Mathlib

/-!
Shallow embedding of the ComparePDF geometric pipeline (src/main.py).

The program detects L-shaped fiducial marks in two rasterized PDF pages and
aligns the second image onto the first by an axis-independent scale plus a
translation, then alpha-blends the two images.  The OpenCV raster stages of
find_L_shapes (gaussian blur, Canny, dilation, contour extraction,
approxPolyDP) are opaque external library calls producing a list of
simplified integer polygons; the embedding models the program's own logic
downstream of them: the 3-or-4-vertex / right-angle polygon filter, the
bounding-box transform of align_and_overlay, resize / warpAffine /
addWeighted over exact rational pixel arithmetic, and the orchestration of
compare_pdfs.  Floating point arithmetic is idealised as exact real or
rational arithmetic.  A NaN produced by a zero-length edge vector
(0.0 / 0.0, then arccos) fails the 85 <= angle <= 95 comparison in Python;
this is modelled by the explicit nonzero-norm guard in edgeAngleOK.
-/

namespace ComparePDF

/-- A simplified contour polygon as produced by cv2.approxPolyDP: an ordered
list of integer pixel coordinates. -/
abbrev Poly : Type := List (ℤ × ℤ)

/-- Dot product of two 2-d real vectors, as np.dot computes it on the edge
vectors in find_L_shapes. -/
noncomputable def dotP (v w : ℝ × ℝ) : ℝ := v.1 * w.1 + v.2 * w.2

/-- Euclidean norm of a 2-d real vector, as np.linalg.norm. -/
noncomputable def normP (v : ℝ × ℝ) : ℝ := Real.sqrt (v.1 ^ 2 + v.2 ^ 2)

/-- Angle between two edge vectors in degrees:
np.degrees(np.arccos(np.dot(v1, v2) / (np.linalg.norm(v1) * np.linalg.norm(v2)))). -/
noncomputable def angleDeg (v w : ℝ × ℝ) : ℝ :=
  Real.arccos (dotP v w / (normP v * normP w)) * 180 / Real.pi

/-- The 85 <= angle <= 95 test of find_L_shapes.  When an edge vector has
zero length Python computes 0.0 / 0.0 = nan, arccos(nan) = nan, and the
comparison 85 <= nan <= 95 is False; the nonzero-norm guard reproduces
exactly that behaviour: a vertex with a degenerate edge never qualifies. -/
def edgeAngleOK (v w : ℝ × ℝ) : Prop :=
  normP v * normP w ≠ 0 ∧ 85 ≤ angleDeg v w ∧ angleDeg v w ≤ 95

/-- Componentwise difference of two points, the edge vector pt2 - pt1. -/
noncomputable def psub (v w : ℝ × ℝ) : ℝ × ℝ := (v.1 - w.1, v.2 - w.2)

/-- Cast an integer contour point to real coordinates (numpy promotes the
integer edge vectors to floats in the norm / arccos computation). -/
noncomputable def toR (v : ℤ × ℤ) : ℝ × ℝ := ((v.1 : ℝ), (v.2 : ℝ))

/-- Cyclic vertex access approx[(j) % len(approx)] on an integer polygon. -/
def ptAt (p : Poly) (j : ℕ) : ℤ × ℤ := p.getD (j % p.length) (0, 0)

/-- Cyclic vertex access on a real-coordinate polygon. -/
def ptAtR (q : List (ℝ × ℝ)) (j : ℕ) : ℝ × ℝ := q.getD (j % q.length) (0, 0)

/-- The vertex-i angle test of find_L_shapes on a real-coordinate polygon:
pt1 = q[i], pt2 = q[(i+1) % n], pt3 = q[(i+2) % n], v1 = pt2 - pt1,
v2 = pt3 - pt2, and the angle between v1 and v2 lies in [85, 95]. -/
def vertexAngleOKR (q : List (ℝ × ℝ)) (i : ℕ) : Prop :=
  edgeAngleOK (psub (ptAtR q (i + 1)) (ptAtR q i)) (psub (ptAtR q (i + 2)) (ptAtR q (i + 1)))

/-- The vertex-i angle test on an integer contour polygon, via the real
computation on the cast coordinates. -/
def vertexAngleOK (p : Poly) (i : ℕ) : Prop :=
  vertexAngleOKR (p.map toR) i

/-- Count of vertices whose computed angle falls in the [85, 95] band:
the length of the right_angles list of find_L_shapes. -/
noncomputable def rightAngleCount (p : Poly) : ℕ :=
  ((List.range p.length).filter
    (fun i => @decide (vertexAngleOK p i) (Classical.propDecidable _))).length

/-- The classification test of find_L_shapes: 3 <= len(approx) <= 4 and at
least 2 computed angles within [85, 95]. -/
def isLCandidate (p : Poly) : Prop :=
  3 ≤ p.length ∧ p.length ≤ 4 ∧ 2 ≤ rightAngleCount p

/-- The polygon filter of find_L_shapes, applied to the simplified contour
polygons produced by the opaque cv2 stages (Canny, dilation, findContours,
approxPolyDP): a polygon is appended to the returned list exactly when it
passes the vertex-count and right-angle tests. -/
noncomputable def find_L_shapes (polys : List Poly) : List Poly :=
  polys.filter (fun p => @decide (isLCandidate p) (Classical.propDecidable _))

/-- Rotation of a point about the origin by the rotation matrix with
cosine c and sine s. -/
noncomputable def rotPt (c s : ℝ) (v : ℝ × ℝ) : ℝ × ℝ :=
  (c * v.1 - s * v.2, s * v.1 + c * v.2)

/-- Axis-aligned bounding box as returned by cv2.boundingRect. -/
structure Box where
  x : ℤ
  y : ℤ
  w : ℤ
  h : ℤ
deriving DecidableEq

/-- cv2.boundingRect of an integer point set: x and y are the coordinate
minima, width and height are max - min + 1.  On an empty point set
cv2.boundingRect returns (0, 0, 0, 0). -/
def boundingRect : Poly → Box
  | [] => ⟨0, 0, 0, 0⟩
  | v :: vs =>
    ⟨vs.foldl (fun m q => min m q.1) v.1,
     vs.foldl (fun m q => min m q.2) v.2,
     vs.foldl (fun m q => max m q.1) v.1 - vs.foldl (fun m q => min m q.1) v.1 + 1,
     vs.foldl (fun m q => max m q.2) v.2 - vs.foldl (fun m q => min m q.2) v.2 + 1⟩

/-- Errors the Python code can raise during alignment, plus the error class
named by the specification.  zeroDivision is Python's ZeroDivisionError from
w_template / w_artwork with an integer zero divisor; emptySize and
shapeMismatch are cv2.error raised by resize / warpAffine on an empty output
size and by addWeighted on differing array shapes.  degenerateGeometry
stands for the DegenerateGeometryError of the specification's error
taxonomy; no code in src raises it, it is included so that statements about
it can be expressed. -/
inductive PyErr where
  | zeroDivision
  | emptySize
  | shapeMismatch
  | degenerateGeometry
deriving DecidableEq

/-- A raster image: height, width, channel count and the flattened
row-major pixel buffer with exact rational intensities. -/
structure Img where
  h : ℕ
  w : ℕ
  c : ℕ
  data : List ℚ
deriving DecidableEq

/-- Pixel read img[y, x, k] on the flattened buffer. -/
def Img.px (img : Img) (y x k : ℕ) : ℚ :=
  img.data.getD ((y * img.w + x) * img.c + k) 0

/-- Well-formedness: the buffer length matches the declared shape.  Every
numpy array the pipeline handles satisfies this. -/
def Img.WF (img : Img) : Prop := img.data.length = img.h * img.w * img.c

instance (img : Img) : Decidable (Img.WF img) :=
  inferInstanceAs (Decidable (img.data.length = img.h * img.w * img.c))

instance {e a : Type} [DecidableEq e] [DecidableEq a] : DecidableEq (Except e a) :=
  fun x y =>
    match x, y with
    | .error u, .error v =>
      if h : u = v then .isTrue (by rw [h])
      else .isFalse (fun hc => h (by cases hc; rfl))
    | .error _, .ok _ => .isFalse (fun hc => by cases hc)
    | .ok _, .error _ => .isFalse (fun hc => by cases hc)
    | .ok u, .ok v =>
      if h : u = v then .isTrue (by rw [h])
      else .isFalse (fun hc => h (by cases hc; rfl))

/-- Build an image of the given shape from a pixel function, row-major. -/
def buildImg (h w c : ℕ) (f : ℕ → ℕ → ℕ → ℚ) : Img :=
  ⟨h, w, c,
   (List.range (h * w * c)).map (fun i => f (i / (w * c)) (i / c % w) (i % c))⟩

/-- Clamp an integer coordinate into [0, n - 1], as the replicated-border
pixel fetch of cv2.resize does at the image edge. -/
def clampIdx (v : ℤ) (n : ℕ) : ℕ := (min (max v 0) ((n : ℤ) - 1)).toNat

/-- Border-replicating pixel fetch used by bilinear resize. -/
def clampPx (img : Img) (k : ℕ) (yy xx : ℤ) : ℚ :=
  img.px (clampIdx yy img.h) (clampIdx xx img.w) k

/-- Constant-zero-border pixel fetch used by warpAffine with the default
BORDER_CONSTANT value 0. -/
def zeroPx (img : Img) (k : ℕ) (yy xx : ℤ) : ℚ :=
  if 0 ≤ yy ∧ yy < (img.h : ℤ) ∧ 0 ≤ xx ∧ xx < (img.w : ℤ) then
    img.px yy.toNat xx.toNat k
  else 0

/-- Bilinear sample at source coordinate (sx, sy) with replicated borders,
as cv2.resize INTER_LINEAR fetches pixels. -/
def sampleClamp (img : Img) (k : ℕ) (sx sy : ℚ) : ℚ :=
  (1 - (sy - ⌊sy⌋)) * ((1 - (sx - ⌊sx⌋)) * clampPx img k ⌊sy⌋ ⌊sx⌋
      + (sx - ⌊sx⌋) * clampPx img k ⌊sy⌋ (⌊sx⌋ + 1))
    + (sy - ⌊sy⌋) * ((1 - (sx - ⌊sx⌋)) * clampPx img k (⌊sy⌋ + 1) ⌊sx⌋
      + (sx - ⌊sx⌋) * clampPx img k (⌊sy⌋ + 1) (⌊sx⌋ + 1))

/-- Bilinear sample at source coordinate (sx, sy) with a constant zero
border, as cv2.warpAffine INTER_LINEAR + BORDER_CONSTANT fetches pixels. -/
def sampleZero (img : Img) (k : ℕ) (sx sy : ℚ) : ℚ :=
  (1 - (sy - ⌊sy⌋)) * ((1 - (sx - ⌊sx⌋)) * zeroPx img k ⌊sy⌋ ⌊sx⌋
      + (sx - ⌊sx⌋) * zeroPx img k ⌊sy⌋ (⌊sx⌋ + 1))
    + (sy - ⌊sy⌋) * ((1 - (sx - ⌊sx⌋)) * zeroPx img k (⌊sy⌋ + 1) ⌊sx⌋
      + (sx - ⌊sx⌋) * zeroPx img k (⌊sy⌋ + 1) (⌊sx⌋ + 1))

/-- cv2.resize(img, None, fx, fy) with INTER_LINEAR: the output size is the
rounded scaled size, an empty output size raises cv2.error, and each output
pixel samples the source at (x + 1/2) * (src / dst) - 1/2 per axis. -/
def resizeImg (img : Img) (fx fy : ℚ) : Except PyErr Img :=
  if (round ((img.w : ℚ) * fx)).toNat = 0 ∨ (round ((img.h : ℚ) * fy)).toNat = 0 then
    .error .emptySize
  else
    .ok (buildImg (round ((img.h : ℚ) * fy)).toNat (round ((img.w : ℚ) * fx)).toNat img.c
      (fun y x k => sampleClamp img k
        (((x : ℚ) + 1/2) * ((img.w : ℚ) / (((round ((img.w : ℚ) * fx)).toNat : ℚ))) - 1/2)
        (((y : ℚ) + 1/2) * ((img.h : ℚ) / (((round ((img.h : ℚ) * fy)).toNat : ℚ))) - 1/2)))

/-- cv2.warpAffine with the pure-translation matrix [[1,0,tx],[0,1,ty]] and
destination size (W, H): each destination pixel (x, y) samples the source at
(x - tx, y - ty); an empty destination raises cv2.error. -/
def warpTranslate (img : Img) (tx ty : ℚ) (W H : ℕ) : Except PyErr Img :=
  if W = 0 ∨ H = 0 then .error .emptySize
  else .ok (buildImg H W img.c
    (fun y x k => sampleZero img k ((x : ℚ) - tx) ((y : ℚ) - ty)))

/-- cv2.addWeighted(A, wa, B, wb, gamma): requires equal shapes, output
pixel = wa * A + wb * B + gamma. -/
def addWeighted (A : Img) (wa : ℚ) (B : Img) (wb : ℚ) (gamma : ℚ) : Except PyErr Img :=
  if A.h = B.h ∧ A.w = B.w ∧ A.c = B.c then
    .ok ⟨A.h, A.w, A.c, List.zipWith (fun p q => wa * p + wb * q + gamma) A.data B.data⟩
  else .error .shapeMismatch

/-- The scale and translation computed by align_and_overlay from the two
bounding boxes: scale_x = w_template / w_artwork, scale_y = h_template /
h_artwork, translation_x = x_template - x_artwork * scale_x, translation_y
= y_template - y_artwork * scale_y.  An integer division by a zero box
width or height raises Python's ZeroDivisionError. -/
def alignScaleTrans (Lt La : Poly) : Except PyErr (ℚ × ℚ × ℚ × ℚ) :=
  if (boundingRect La).w = 0 then .error .zeroDivision
  else if (boundingRect La).h = 0 then .error .zeroDivision
  else .ok
    (((boundingRect Lt).w : ℚ) / ((boundingRect La).w : ℚ),
     ((boundingRect Lt).h : ℚ) / ((boundingRect La).h : ℚ),
     ((boundingRect Lt).x : ℚ)
       - ((boundingRect La).x : ℚ) * (((boundingRect Lt).w : ℚ) / ((boundingRect La).w : ℚ)),
     ((boundingRect Lt).y : ℚ)
       - ((boundingRect La).y : ℚ) * (((boundingRect Lt).h : ℚ) / ((boundingRect La).h : ℚ)))

/-- align_and_overlay: compute the bounding-box scales and translation,
resize the artwork, warp it by the translation into a buffer of the
template's size, and blend with addWeighted(template, 1 - transparency,
artwork_translated, transparency, 0). -/
def alignAndOverlay (t a : Img) (Lt La : Poly) (alpha : ℚ) : Except PyErr Img :=
  match alignScaleTrans Lt La with
  | .error e => .error e
  | .ok (sx, sy, tx, ty) =>
    match resizeImg a sx sy with
    | .error e => .error e
    | .ok ar =>
      match warpTranslate ar tx ty t.w t.h with
      | .error e => .error e
      | .ok at2 => addWeighted t (1 - alpha) at2 alpha 0

/-- The observable outcome of compare_pdfs: either the no-L-shapes message
with an early return and no composite, a saved composite image, or an
uncaught Python exception from the alignment stage. -/
inductive Outcome where
  | noLShapes
  | saved (img : Img)
  | raised (e : PyErr)
deriving DecidableEq

/-- compare_pdfs downstream of rasterization: run the L-shape filter on the
simplified contour polygons of each page, stop with the "No L-shapes found"
message if either list is empty, otherwise align and overlay using the
first candidate from each list and save the result. -/
noncomputable def comparePdfs (tpolys apolys : List Poly) (timg aimg : Img)
    (alpha : ℚ) : Outcome :=
  match find_L_shapes tpolys, find_L_shapes apolys with
  | [], _ => .noLShapes
  | _ :: _, [] => .noLShapes
  | t0 :: _, a0 :: _ =>
    match alignAndOverlay timg aimg t0 a0 alpha with
    | .ok img => .saved img
    | .error e => .raised e

/-- A concrete axis-aligned square contour polygon; every interior angle
between consecutive edge vectors is exactly 90 degrees. -/
def sqPoly : Poly := [(0, 0), (4, 0), (4, 4), (0, 4)]

/-- A concrete polygon whose bounding box is 200 wide and 11 tall. -/
def tplPoly : Poly := [(0, 0), (199, 0), (199, 10), (0, 10)]

/-- A concrete polygon whose bounding box is 100 wide and 11 tall. -/
def artPoly : Poly := [(0, 0), (99, 0), (99, 10), (0, 10)]

/-- A concrete degenerate polygon with two coincident consecutive
vertices. -/
def dgPoly : Poly := [(1, 1), (1, 1), (5, 5)]

/-- A concrete one-pixel single-channel template image. -/
def imgT : Img := ⟨1, 1, 1, [3]⟩

/-- A concrete one-pixel single-channel artwork image. -/
def imgA : Img := ⟨1, 1, 1, [5]⟩

/-- A concrete one-pixel three-channel artwork image, used to exercise the
channel-depth mismatch. -/
def imgA3 : Img := ⟨1, 1, 3, [0, 0, 0]⟩

lemma getD_map {α β : Type} (f : α → β) (l : List α) (n : ℕ) (d : α) :
    (l.map f).getD n (f d) = f (l.getD n d) := by
  induction l generalizing n with
  | nil => simp [List.getD]
  | cons a l ih =>
    cases n with
    | zero => simp
    | succ m =>
      rw [List.map_cons, List.getD_cons_succ, List.getD_cons_succ]
      exact ih m

lemma getD_range_map {α : Type} (l : List α) (d : α) :
    (List.range l.length).map (fun i => l.getD i d) = l := by
  induction l with
  | nil => simp
  | cons a l ih =>
    rw [List.length_cons, List.range_succ_eq_map, List.map_cons, List.map_map]
    have h2 : List.map ((fun i => (a :: l).getD i d) ∘ Nat.succ) (List.range l.length)
        = List.map (fun i => l.getD i d) (List.range l.length) :=
      List.map_congr_left (fun i _ => by simp [Function.comp, List.getD_cons_succ])
    rw [h2, ih]
    simp

lemma idx_id (w c i : ℕ) : (i / (w * c) * w + i / c % w) * c + i % c = i := by
  have h1 : i / (w * c) = i / c / w := by
    rw [Nat.div_div_eq_div_mul, Nat.mul_comm]
  have h2 : i / c / w * w + i / c % w = i / c := by
    rw [Nat.mul_comm (i / c / w) w]
    exact Nat.div_add_mod _ _
  rw [h1, h2, Nat.mul_comm (i / c) c]
  exact Nat.div_add_mod _ _

lemma buildImg_congr (h w c : ℕ) (f g : ℕ → ℕ → ℕ → ℚ)
    (hfg : ∀ y x k, y < h → x < w → k < c → f y x k = g y x k) :
    buildImg h w c f = buildImg h w c g := by
  unfold buildImg
  refine congrArg _ (List.map_congr_left ?_)
  intro i hi
  rw [List.mem_range] at hi
  rcases Nat.eq_zero_or_pos c with hc | hc
  · exact absurd hi (by simp [hc])
  rcases Nat.eq_zero_or_pos w with hw0 | hw0
  · exact absurd hi (by simp [hw0])
  refine hfg _ _ _ ?_ (Nat.mod_lt _ hw0) (Nat.mod_lt _ hc)
  rw [Nat.div_lt_iff_lt_mul (Nat.mul_pos hw0 hc)]
  rw [Nat.mul_assoc] at hi
  exact hi

lemma buildImg_px (a : Img) (hWF : a.WF) : buildImg a.h a.w a.c a.px = a := by
  obtain ⟨h, w, c, data⟩ := a
  simp only [Img.WF] at hWF
  unfold buildImg
  simp only [Img.mk.injEq, true_and]
  have hix : (fun i => Img.px ⟨h, w, c, data⟩ (i / (w * c)) (i / c % w) (i % c))
      = fun i => data.getD i 0 := by
    funext i
    simp only [Img.px, idx_id]
  rw [hix, ← hWF]
  exact getD_range_map data 0

lemma clampIdx_cast (y n : ℕ) (hy : y < n) : clampIdx (y : ℤ) n = y := by
  unfold clampIdx
  omega

lemma clampPx_cast (a : Img) (k y x : ℕ) (hy : y < a.h) (hx : x < a.w) :
    clampPx a k (y : ℤ) (x : ℤ) = a.px y x k := by
  unfold clampPx
  rw [clampIdx_cast y a.h hy, clampIdx_cast x a.w hx]

lemma zeroPx_cast (a : Img) (k y x : ℕ) (hy : y < a.h) (hx : x < a.w) :
    zeroPx a k (y : ℤ) (x : ℤ) = a.px y x k := by
  unfold zeroPx
  rw [if_pos (by omega)]
  simp

lemma sampleClamp_int (a : Img) (k y x : ℕ) (hy : y < a.h) (hx : x < a.w) :
    sampleClamp a k (x : ℚ) (y : ℚ) = a.px y x k := by
  unfold sampleClamp
  rw [Int.floor_natCast, Int.floor_natCast]
  have hx0 : ((x : ℚ)) - (((x : ℕ) : ℤ) : ℚ) = 0 := by push_cast; ring
  have hy0 : ((y : ℚ)) - (((y : ℕ) : ℤ) : ℚ) = 0 := by push_cast; ring
  rw [hx0, hy0, clampPx_cast a k y x hy hx]
  ring

lemma sampleZero_int (a : Img) (k y x : ℕ) (hy : y < a.h) (hx : x < a.w) :
    sampleZero a k (x : ℚ) (y : ℚ) = a.px y x k := by
  unfold sampleZero
  rw [Int.floor_natCast, Int.floor_natCast]
  have hx0 : ((x : ℚ)) - (((x : ℕ) : ℤ) : ℚ) = 0 := by push_cast; ring
  have hy0 : ((y : ℚ)) - (((y : ℕ) : ℤ) : ℚ) = 0 := by push_cast; ring
  rw [hx0, hy0, zeroPx_cast a k y x hy hx]
  ring

lemma resize_one (a : Img) (hWF : a.WF) (hh : a.h ≠ 0) (hw : a.w ≠ 0) :
    resizeImg a 1 1 = .ok a := by
  unfold resizeImg
  have hw2 : (round ((a.w : ℚ) * 1)).toNat = a.w := by simp
  have hh2 : (round ((a.h : ℚ) * 1)).toNat = a.h := by simp
  rw [hw2, hh2, if_neg (by simp [hw, hh])]
  refine congrArg _ ?_
  have hrw : (a.w : ℚ) / ((a.w : ℕ) : ℚ) = 1 := div_self (Nat.cast_ne_zero.mpr hw)
  have hrh : (a.h : ℚ) / ((a.h : ℕ) : ℚ) = 1 := div_self (Nat.cast_ne_zero.mpr hh)
  rw [hrw, hrh]
  refine Eq.trans (buildImg_congr _ _ _ _ a.px ?_) (buildImg_px a hWF)
  intro y x k hy hx _
  rw [show ((x : ℚ) + 1/2) * 1 - 1/2 = (x : ℚ) by ring,
      show ((y : ℚ) + 1/2) * 1 - 1/2 = (y : ℚ) by ring]
  exact sampleClamp_int a k y x hy hx

lemma warp_id (a : Img) (hWF : a.WF) (hh : a.h ≠ 0) (hw : a.w ≠ 0) :
    warpTranslate a 0 0 a.w a.h = .ok a := by
  unfold warpTranslate
  rw [if_neg (by simp [hw, hh])]
  refine congrArg _ ?_
  refine Eq.trans (buildImg_congr _ _ _ _ a.px ?_) (buildImg_px a hWF)
  intro y x k hy hx _
  rw [sub_zero, sub_zero]
  exact sampleZero_int a k y x hy hx

lemma zipWith_one_zero (l1 l2 : List ℚ) (h : l1.length ≤ l2.length) :
    List.zipWith (fun p q => 1 * p + 0 * q + 0) l1 l2 = l1 := by
  induction l1 generalizing l2 with
  | nil => simp
  | cons a l ih =>
    cases l2 with
    | nil => exact absurd h (by simp)
    | cons b l2 =>
      rw [List.zipWith_cons_cons, ih l2 (by simpa using h)]
      norm_num

lemma zipWith_zero_one (l1 l2 : List ℚ) (h : l2.length ≤ l1.length) :
    List.zipWith (fun p q => 0 * p + 1 * q + 0) l1 l2 = l2 := by
  induction l1 generalizing l2 with
  | nil =>
    cases l2 with
    | nil => simp
    | cons b l2 => exact absurd h (by simp)
  | cons a l ih =>
    cases l2 with
    | nil => simp
    | cons b l2 =>
      rw [List.zipWith_cons_cons, ih l2 (by simpa using h)]
      norm_num

lemma addWeighted_left_id (A B : Img) (hh : A.h = B.h) (hw : A.w = B.w)
    (hc : A.c = B.c) (hlen : A.data.length ≤ B.data.length) :
    addWeighted A 1 B 0 0 = .ok A := by
  unfold addWeighted
  rw [if_pos ⟨hh, hw, hc⟩, zipWith_one_zero A.data B.data hlen]

lemma addWeighted_right_id (A B : Img) (hh : A.h = B.h) (hw : A.w = B.w)
    (hc : A.c = B.c) (hlen : B.data.length ≤ A.data.length) :
    addWeighted A 0 B 1 0 = .ok B := by
  unfold addWeighted
  rw [if_pos ⟨hh, hw, hc⟩, zipWith_zero_one A.data B.data hlen]
  rw [hh, hw, hc]

lemma align_eq_of (t a : Img) (Lt La : Poly) (alpha sx sy tx ty : ℚ)
    (ar w2 : Img) (hst : alignScaleTrans Lt La = .ok (sx, sy, tx, ty))
    (har : resizeImg a sx sy = .ok ar)
    (hwp : warpTranslate ar tx ty t.w t.h = .ok w2) :
    alignAndOverlay t a Lt La alpha = addWeighted t (1 - alpha) w2 alpha 0 := by
  unfold alignAndOverlay
  rw [hst]
  dsimp only
  rw [har]
  dsimp only
  rw [hwp]

lemma warp_ok_shape (img : Img) (tx ty : ℚ) (W H : ℕ) (w2 : Img)
    (h : warpTranslate img tx ty W H = .ok w2) :
    w2.h = H ∧ w2.w = W ∧ w2.c = img.c ∧ w2.data.length = H * W * img.c := by
  unfold warpTranslate at h
  split at h
  · exact absurd h (by simp)
  · rw [Except.ok.injEq] at h
    subst h
    refine ⟨rfl, rfl, rfl, ?_⟩
    simp [buildImg]

lemma resize_ok_channels (img : Img) (fx fy : ℚ) (ar : Img)
    (h : resizeImg img fx fy = .ok ar) : ar.c = img.c := by
  unfold resizeImg at h
  split at h
  · exact absurd h (by simp)
  · rw [Except.ok.injEq] at h
    subst h
    rfl

lemma getD_map2 {α β : Type} (f : α → β) (l : List α) (n : ℕ) (d : α) (e : β)
    (he : e = f d) : (l.map f).getD n e = f (l.getD n d) := by
  rw [he, getD_map]

lemma normP_zero : normP ((0 : ℝ), (0 : ℝ)) = 0 := by
  simp [normP]

lemma normP_pos (v : ℝ × ℝ) (h : v ≠ (0, 0)) : 0 < normP v := by
  have hne : v.1 ≠ 0 ∨ v.2 ≠ 0 := by
    rcases v with ⟨x, y⟩
    by_contra hc
    push_neg at hc
    simp only at hc
    exact h (by simp [hc.1, hc.2])
  refine Real.sqrt_pos.mpr ?_
  rcases hne with hx | hy
  · have h1 : 0 < |v.1| ^ 2 := pow_pos (abs_pos.mpr hx) 2
    rw [sq_abs] at h1
    nlinarith [sq_nonneg v.2]
  · have h1 : 0 < |v.2| ^ 2 := pow_pos (abs_pos.mpr hy) 2
    rw [sq_abs] at h1
    nlinarith [sq_nonneg v.1]

lemma psub_self (a : ℝ × ℝ) : psub a a = (0, 0) := by
  simp [psub]

lemma edgeAngleOK_perp (v w : ℝ × ℝ) (hv : v ≠ (0, 0)) (hw : w ≠ (0, 0))
    (hd : dotP v w = 0) : edgeAngleOK v w := by
  have hnv := normP_pos v hv
  have hnw := normP_pos w hw
  have hang : angleDeg v w = 90 := by
    unfold angleDeg
    rw [hd, zero_div, Real.arccos_zero, div_eq_iff Real.pi_ne_zero]
    ring
  refine ⟨(mul_pos hnv hnw).ne', ?_, ?_⟩ <;> rw [hang] <;> norm_num

lemma rotPt_zero (c s : ℝ) : rotPt c s (0, 0) = (0, 0) := by
  simp [rotPt]

lemma psub_rot (c s : ℝ) (a b : ℝ × ℝ) :
    psub (rotPt c s a) (rotPt c s b) = rotPt c s (psub a b) := by
  simp only [psub, rotPt, Prod.mk.injEq]
  constructor <;> ring

lemma dotP_rot (c s : ℝ) (hcs : c ^ 2 + s ^ 2 = 1) (v w : ℝ × ℝ) :
    dotP (rotPt c s v) (rotPt c s w) = dotP v w := by
  simp only [dotP, rotPt]
  linear_combination (v.1 * w.1 + v.2 * w.2) * hcs

lemma normP_rot (c s : ℝ) (hcs : c ^ 2 + s ^ 2 = 1) (v : ℝ × ℝ) :
    normP (rotPt c s v) = normP v := by
  simp only [normP, rotPt]
  congr 1
  linear_combination (v.1 ^ 2 + v.2 ^ 2) * hcs

lemma edgeAngleOK_rot (c s : ℝ) (hcs : c ^ 2 + s ^ 2 = 1) (v w : ℝ × ℝ) :
    edgeAngleOK (rotPt c s v) (rotPt c s w) ↔ edgeAngleOK v w := by
  unfold edgeAngleOK angleDeg
  rw [dotP_rot c s hcs, normP_rot c s hcs, normP_rot c s hcs]

lemma ptAtR_map_rot (c s : ℝ) (q : List (ℝ × ℝ)) (j : ℕ) :
    ptAtR (q.map (rotPt c s)) j = rotPt c s (ptAtR q j) := by
  unfold ptAtR
  rw [List.length_map]
  exact getD_map2 (rotPt c s) q _ (0, 0) (0, 0) (rotPt_zero c s).symm

lemma ptAtR_map_toR (p : Poly) (j : ℕ) : ptAtR (p.map toR) j = toR (ptAt p j) := by
  unfold ptAtR ptAt
  rw [List.length_map]
  exact getD_map2 toR p _ (0, 0) (0, 0) (by simp [toR])

lemma sqPolyR : sqPoly.map toR = [((0 : ℝ), (0 : ℝ)), (4, 0), (4, 4), (0, 4)] := by
  simp [sqPoly, toR]

lemma sq_vertexOK : ∀ i, i < 4 → vertexAngleOK sqPoly i := by
  intro i hi
  unfold vertexAngleOK vertexAngleOKR
  rw [sqPolyR]
  interval_cases i <;>
    refine edgeAngleOK_perp _ _ ?_ ?_ ?_ <;>
      simp [ptAtR, psub, dotP, Prod.ext_iff]

lemma sq_isLCandidate : isLCandidate sqPoly := by
  refine ⟨by decide, by decide, ?_⟩
  unfold rightAngleCount
  have hr : List.range sqPoly.length = [0, 1, 2, 3] := by decide
  rw [hr]
  have d0 : @decide (vertexAngleOK sqPoly 0) (Classical.propDecidable _) = true :=
    @decide_eq_true _ (Classical.propDecidable _) (sq_vertexOK 0 (by norm_num))
  have d1 : @decide (vertexAngleOK sqPoly 1) (Classical.propDecidable _) = true :=
    @decide_eq_true _ (Classical.propDecidable _) (sq_vertexOK 1 (by norm_num))
  have d2 : @decide (vertexAngleOK sqPoly 2) (Classical.propDecidable _) = true :=
    @decide_eq_true _ (Classical.propDecidable _) (sq_vertexOK 2 (by norm_num))
  have d3 : @decide (vertexAngleOK sqPoly 3) (Classical.propDecidable _) = true :=
    @decide_eq_true _ (Classical.propDecidable _) (sq_vertexOK 3 (by norm_num))
  simp [List.filter_cons, d0, d1, d2, d3]

lemma align_ok_inv (t a : Img) (Lt La : Poly) (alpha : ℚ) (out : Img)
    (h : alignAndOverlay t a Lt La alpha = .ok out) :
    ∃ sx sy tx ty ar w2, alignScaleTrans Lt La = .ok (sx, sy, tx, ty) ∧
      resizeImg a sx sy = .ok ar ∧ warpTranslate ar tx ty t.w t.h = .ok w2 ∧
      addWeighted t (1 - alpha) w2 alpha 0 = .ok out := by
  unfold alignAndOverlay at h
  cases hst : alignScaleTrans Lt La with
  | error e => rw [hst] at h; simp at h
  | ok st =>
    obtain ⟨sx, sy, tx, ty⟩ := st
    rw [hst] at h
    dsimp only at h
    cases har : resizeImg a sx sy with
    | error e => rw [har] at h; simp at h
    | ok ar =>
      rw [har] at h
      dsimp only at h
      cases hwp : warpTranslate ar tx ty t.w t.h with
      | error e => rw [hwp] at h; simp at h
      | ok w2 =>
        rw [hwp] at h
        dsimp only at h
        exact ⟨sx, sy, tx, ty, ar, w2, rfl, har, hwp, h⟩

lemma alignScaleTrans_identity (Lt La : Poly)
    (hbox : boundingRect Lt = boundingRect La)
    (hbw : (boundingRect La).w ≠ 0) (hbh : (boundingRect La).h ≠ 0) :
    alignScaleTrans Lt La = .ok (1, 1, 0, 0) := by
  have hsx : ((boundingRect Lt).w : ℚ) / ((boundingRect La).w : ℚ) = 1 := by
    rw [hbox]
    exact div_self (Int.cast_ne_zero.mpr hbw)
  have hsy : ((boundingRect Lt).h : ℚ) / ((boundingRect La).h : ℚ) = 1 := by
    rw [hbox]
    exact div_self (Int.cast_ne_zero.mpr hbh)
  unfold alignScaleTrans
  rw [if_neg hbw, if_neg hbh, hsx, hsy, hbox]
  rw [show ((boundingRect La).x : ℚ) - ((boundingRect La).x : ℚ) * 1 = 0 by ring,
      show ((boundingRect La).y : ℚ) - ((boundingRect La).y : ℚ) * 1 = 0 by ring]

/-- C1: a polygon is returned by the Shape Detector's filter
(find_L_shapes) as a fiducial candidate if and only if it is one of the
simplified contour polygons, has 3 or 4 vertices, and at least 2 of its
computed angles in degrees lie in the closed band [85, 95]; consequently
every polygon in the returned list satisfies both conditions. -/
theorem c1_find_L_shapes_mem_iff (polys : List Poly) (p : Poly) :
    p ∈ find_L_shapes polys ↔
      p ∈ polys ∧ 3 ≤ p.length ∧ p.length ≤ 4 ∧ 2 ≤ rightAngleCount p := by
  unfold find_L_shapes
  rw [List.mem_filter]
  constructor
  · rintro ⟨hm, hd⟩
    exact ⟨hm, @of_decide_eq_true _ (Classical.propDecidable _) hd⟩
  · rintro ⟨hm, hc⟩
    exact ⟨hm, @decide_eq_true _ (Classical.propDecidable _) hc⟩

/-- C2: align_and_overlay computes the transform exactly as
sx = template box width / artwork box width, sy = template box height /
artwork box height, tx = template box x - artwork box x * sx,
ty = template box y - artwork box y * sy; in particular any template box of
width 200 paired with an artwork box of width 100 (equal nonzero heights)
gives sx exactly 2. -/
theorem c2_scale_translate :
    (∀ Lt La : Poly, (boundingRect La).w ≠ 0 → (boundingRect La).h ≠ 0 →
      alignScaleTrans Lt La = .ok
        (((boundingRect Lt).w : ℚ) / ((boundingRect La).w : ℚ),
         ((boundingRect Lt).h : ℚ) / ((boundingRect La).h : ℚ),
         ((boundingRect Lt).x : ℚ) - ((boundingRect La).x : ℚ)
           * (((boundingRect Lt).w : ℚ) / ((boundingRect La).w : ℚ)),
         ((boundingRect Lt).y : ℚ) - ((boundingRect La).y : ℚ)
           * (((boundingRect Lt).h : ℚ) / ((boundingRect La).h : ℚ))))
    ∧ (∀ (Lt La : Poly) (v : ℚ × ℚ × ℚ × ℚ),
        (boundingRect Lt).w = 200 → (boundingRect La).w = 100 →
        (boundingRect Lt).h = (boundingRect La).h → (boundingRect La).h ≠ 0 →
        alignScaleTrans Lt La = .ok v → v.1 = 2) := by
  constructor
  · intro Lt La hw hh
    unfold alignScaleTrans
    rw [if_neg hw, if_neg hh]
  · intro Lt La v h200 h100 _ hh hv
    unfold alignScaleTrans at hv
    rw [if_neg (by rw [h100]; decide), if_neg hh, Except.ok.injEq] at hv
    subst hv
    rw [h200, h100]
    norm_num

/-- C2 witness: concrete polygons whose boxes are 200 and 100 wide with
equal heights 11; the computed sx equals exactly 2. -/
theorem c2_scale_translate_witness :
    ((boundingRect tplPoly).w = 200 ∧ (boundingRect artPoly).w = 100 ∧
      (boundingRect tplPoly).h = (boundingRect artPoly).h ∧
      (boundingRect artPoly).h ≠ 0) ∧
      ((2 : ℚ), (1 : ℚ), (0 : ℚ), (0 : ℚ)).1 = 2 := by
  have hst : alignScaleTrans tplPoly artPoly = Except.ok (2, 1, 0, 0) := by
    have hbt : boundingRect tplPoly = ⟨0, 0, 200, 11⟩ := by decide
    have hba : boundingRect artPoly = ⟨0, 0, 100, 11⟩ := by decide
    unfold alignScaleTrans
    rw [hbt, hba]
    norm_num
  exact ⟨⟨by decide, by decide, by decide, by decide⟩,
    c2_scale_translate.2 tplPoly artPoly (2, 1, 0, 0) (by decide) (by decide)
      (by decide) (by decide) hst⟩

/-- C3: if the Shape Detector yields zero fiducial candidates for either
image, compare_pdfs stops with the no-L-shapes report and produces no
composite (and no exception). -/
theorem c3_no_fiducial_stops (tp ap : List Poly) (ti ai : Img) (alpha : ℚ)
    (h : find_L_shapes tp = [] ∨ find_L_shapes ap = []) :
    comparePdfs tp ap ti ai alpha = .noLShapes := by
  unfold comparePdfs
  rcases h with h | h
  · rw [h]
  · rw [h]
    cases find_L_shapes tp <;> rfl

/-- C3 witness: an empty contour list (a blank image with no edges) stops
the pipeline with the no-L-shapes outcome. -/
theorem c3_no_fiducial_stops_witness :
    (find_L_shapes [] = [] ∨ find_L_shapes [sqPoly] = []) ∧
      comparePdfs [] [sqPoly] imgT imgA (1/2) = .noLShapes :=
  ⟨Or.inl rfl, c3_no_fiducial_stops [] [sqPoly] imgT imgA (1/2) (Or.inl rfl)⟩

/-- C4 counterexample: with an artwork fiducial whose bounding box has zero
width (the empty polygon, for which cv2.boundingRect returns all zeros) the
alignment fails with Python's ZeroDivisionError, which is not the
DegenerateGeometryError the claim requires. -/
theorem c4_zero_box_counterexample :
    alignAndOverlay imgT imgA sqPoly [] (1/2) = .error .zeroDivision ∧
      PyErr.zeroDivision ≠ PyErr.degenerateGeometry :=
  ⟨by decide, by decide⟩

/-- C4 amended: a zero-width or zero-height artwork bounding box makes the
alignment fail fast with an uncaught ZeroDivisionError (so no infinite or
NaN scale factor is ever produced), not with a DegenerateGeometryError. -/
theorem c4_zero_box_zero_division (t a : Img) (Lt La : Poly) (alpha : ℚ)
    (h : (boundingRect La).w = 0 ∨ (boundingRect La).h = 0) :
    alignAndOverlay t a Lt La alpha = .error .zeroDivision := by
  have hst : alignScaleTrans Lt La = .error .zeroDivision := by
    unfold alignScaleTrans
    rcases h with h | h
    · rw [if_pos h]
    · by_cases hw : (boundingRect La).w = 0
      · rw [if_pos hw]
      · rw [if_neg hw, if_pos h]
  unfold alignAndOverlay
  rw [hst]

/-- C4 witness: the zero-width box of the empty polygon triggers the
ZeroDivisionError outcome. -/
theorem c4_zero_box_zero_division_witness :
    ((boundingRect ([] : Poly)).w = 0 ∨ (boundingRect ([] : Poly)).h = 0) ∧
      alignAndOverlay imgA imgT sqPoly [] (1/3) = .error .zeroDivision :=
  ⟨Or.inl (by decide),
   c4_zero_box_zero_division imgA imgT sqPoly [] (1/3) (Or.inl (by decide))⟩

/-- C5: a zero-length edge vector (two coincident consecutive vertices)
makes that vertex's angle not qualify rather than propagating a NaN into
the classification, and a degenerate polygon in the contour list never
aborts the detection pass: every qualifying polygon among the remaining
contours is still returned. -/
theorem c5_degenerate_vertex_local :
    (∀ (p : Poly) (i : ℕ), ptAt p (i + 1) = ptAt p i → ¬ vertexAngleOK p i) ∧
      (∀ (d : Poly) (polys : List Poly) (q : Poly),
        q ∈ polys → isLCandidate q → q ∈ find_L_shapes (d :: polys)) := by
  constructor
  · intro p i hco
    unfold vertexAngleOK vertexAngleOKR
    simp only [ptAtR_map_toR]
    rw [hco, psub_self]
    intro hOK
    exact hOK.1 (by rw [normP_zero, zero_mul])
  · intro d polys q hq hc
    unfold find_L_shapes
    rw [List.mem_filter]
    exact ⟨List.mem_cons_of_mem d hq, @decide_eq_true _ (Classical.propDecidable _) hc⟩

/-- C5 witness: a polygon with a repeated vertex has a non-qualifying angle
there, and a qualifying square listed after that degenerate polygon is
still detected. -/
theorem c5_degenerate_vertex_local_witness :
    (ptAt dgPoly 1 = ptAt dgPoly 0 ∧ ¬ vertexAngleOK dgPoly 0) ∧
      (sqPoly ∈ [sqPoly] ∧ isLCandidate sqPoly ∧
        sqPoly ∈ find_L_shapes (dgPoly :: [sqPoly])) :=
  ⟨⟨by decide, c5_degenerate_vertex_local.1 dgPoly 0 (by decide)⟩,
   ⟨by simp, sq_isLCandidate,
    c5_degenerate_vertex_local.2 dgPoly [sqPoly] sqPoly (by simp) sq_isLCandidate⟩⟩

/-- C6: when the two chosen fiducials have identical nondegenerate bounding
boxes and the images have matching shape, the computed transform is the
identity (sx = sy = 1, tx = ty = 0) and the composite equals the flat alpha
blend of the two unmodified input images. -/
theorem c6_identity_boxes (t a : Img) (Lt La : Poly) (alpha : ℚ)
    (hbox : boundingRect Lt = boundingRect La)
    (hbw : (boundingRect La).w ≠ 0) (hbh : (boundingRect La).h ≠ 0)
    (hWFa : a.WF) (hah : a.h = t.h) (haw : a.w = t.w) (_ : a.c = t.c)
    (hh0 : a.h ≠ 0) (hw0 : a.w ≠ 0) :
    alignScaleTrans Lt La = .ok (1, 1, 0, 0) ∧
      alignAndOverlay t a Lt La alpha = addWeighted t (1 - alpha) a alpha 0 := by
  have hst : alignScaleTrans Lt La = .ok (1, 1, 0, 0) :=
    alignScaleTrans_identity Lt La hbox hbw hbh
  refine ⟨hst, ?_⟩
  have har : resizeImg a 1 1 = .ok a := resize_one a hWFa hh0 hw0
  have hwp : warpTranslate a 0 0 t.w t.h = .ok a := by
    rw [← haw, ← hah]
    exact warp_id a hWFa hh0 hw0
  exact align_eq_of t a Lt La alpha 1 1 0 0 a a hst har hwp

/-- C6 witness: identical square fiducials on two one-pixel images give the
identity transform and a composite equal to the flat blend of the inputs. -/
theorem c6_identity_boxes_witness :
    (boundingRect sqPoly = boundingRect sqPoly ∧ (boundingRect sqPoly).w ≠ 0 ∧
      (boundingRect sqPoly).h ≠ 0 ∧ Img.WF imgA ∧ imgA.h = imgT.h ∧
      imgA.w = imgT.w ∧ imgA.c = imgT.c) ∧
      (alignScaleTrans sqPoly sqPoly = .ok (1, 1, 0, 0) ∧
        alignAndOverlay imgT imgA sqPoly sqPoly (1/2)
          = addWeighted imgT (1 - 1/2) imgA (1/2) 0) :=
  ⟨⟨rfl, by decide, by decide, by decide, rfl, rfl, rfl⟩,
   c6_identity_boxes imgT imgA sqPoly sqPoly (1/2) rfl (by decide) (by decide)
     (by decide) rfl rfl rfl (by decide) (by decide)⟩

/-- C7: whenever the alignment stages succeed, opacity 0 yields a composite
identical to the template image and opacity 1 yields a composite identical
to the translated and scaled artwork image. -/
theorem c7_opacity_boundary (t a : Img) (Lt La : Poly)
    (sx sy tx ty : ℚ) (ar w2 : Img) (hWF : t.WF) (hc : t.c = a.c)
    (hst : alignScaleTrans Lt La = .ok (sx, sy, tx, ty))
    (har : resizeImg a sx sy = .ok ar)
    (hwp : warpTranslate ar tx ty t.w t.h = .ok w2) :
    alignAndOverlay t a Lt La 0 = .ok t ∧ alignAndOverlay t a Lt La 1 = .ok w2 := by
  obtain ⟨hw2h, hw2w, hw2c, hw2len⟩ := warp_ok_shape ar tx ty t.w t.h w2 hwp
  have hac : ar.c = a.c := resize_ok_channels a sx sy ar har
  have hcc : t.c = w2.c := by rw [hw2c, hac, hc]
  have hlen : t.data.length = w2.data.length := by
    rw [hWF, hw2len, hac, hc]
  constructor
  · rw [align_eq_of t a Lt La 0 sx sy tx ty ar w2 hst har hwp]
    rw [show (1 : ℚ) - 0 = 1 by norm_num]
    exact addWeighted_left_id t w2 hw2h.symm hw2w.symm hcc (le_of_eq hlen)
  · rw [align_eq_of t a Lt La 1 sx sy tx ty ar w2 hst har hwp]
    rw [show (1 : ℚ) - 1 = 0 by norm_num]
    exact addWeighted_right_id t w2 hw2h.symm hw2w.symm hcc (le_of_eq hlen.symm)

/-- C7 witness: on concrete one-pixel images with identical square
fiducials, opacity 0 returns the template and opacity 1 returns the
translated and scaled artwork. -/
theorem c7_opacity_boundary_witness :
    (Img.WF imgT ∧ imgT.c = imgA.c ∧
      alignScaleTrans sqPoly sqPoly = .ok (1, 1, 0, 0) ∧
      resizeImg imgA 1 1 = .ok imgA ∧
      warpTranslate imgA 0 0 imgT.w imgT.h = .ok imgA) ∧
      (alignAndOverlay imgT imgA sqPoly sqPoly 0 = .ok imgT ∧
        alignAndOverlay imgT imgA sqPoly sqPoly 1 = .ok imgA) :=
  ⟨⟨by decide, rfl, alignScaleTrans_identity sqPoly sqPoly rfl (by decide) (by decide),
    resize_one imgA (by decide) (by decide) (by decide),
    warp_id imgA (by decide) (by decide) (by decide)⟩,
   c7_opacity_boundary imgT imgA sqPoly sqPoly 1 1 0 0 imgA imgA (by decide) rfl
     (alignScaleTrans_identity sqPoly sqPoly rfl (by decide) (by decide))
     (resize_one imgA (by decide) (by decide) (by decide))
     (warp_id imgA (by decide) (by decide) (by decide))⟩

/-- C8: the angle computation is rotation-invariant: rotating all vertex
coordinates of a 3- or 4-vertex polygon by any fixed rotation does not
change which vertices qualify as right angles within the [85, 95] band,
since the angles depend only on relative adjacent-edge vectors. -/
theorem c8_rotation_invariant (c s : ℝ) (hcs : c ^ 2 + s ^ 2 = 1)
    (q : List (ℝ × ℝ)) (_h3 : 3 ≤ q.length) (_h4 : q.length ≤ 4) (i : ℕ) :
    vertexAngleOKR (q.map (rotPt c s)) i ↔ vertexAngleOKR q i := by
  unfold vertexAngleOKR
  simp only [ptAtR_map_rot, psub_rot]
  exact edgeAngleOK_rot c s hcs _ _

/-- C8 witness: rotating the square polygon by 90 degrees (cosine 0,
sine 1) leaves the qualification of vertex 0 unchanged. -/
theorem c8_rotation_invariant_witness :
    ((0 : ℝ) ^ 2 + 1 ^ 2 = 1 ∧ 3 ≤ (sqPoly.map toR).length ∧
      (sqPoly.map toR).length ≤ 4) ∧
      (vertexAngleOKR ((sqPoly.map toR).map (rotPt 0 1)) 0 ↔
        vertexAngleOKR (sqPoly.map toR) 0) :=
  ⟨⟨by norm_num, by simp [sqPoly], by simp [sqPoly]⟩,
   c8_rotation_invariant 0 1 (by norm_num) (sqPoly.map toR) (by simp [sqPoly])
     (by simp [sqPoly]) 0⟩

/-- C9 counterexample: a single-channel template and a three-channel
artwork are not normalized to a common channel count; the blend step fails
with a shape-mismatch error. -/
theorem c9_channel_counterexample :
    imgT.c ≠ imgA3.c ∧
      alignAndOverlay imgT imgA3 sqPoly sqPoly (1/2) = .error .shapeMismatch := by
  refine ⟨by decide, ?_⟩
  rw [align_eq_of imgT imgA3 sqPoly sqPoly (1/2) 1 1 0 0 imgA3 imgA3
    (alignScaleTrans_identity sqPoly sqPoly rfl (by decide) (by decide))
    (resize_one imgA3 (by decide) (by decide) (by decide))
    (warp_id imgA3 (by decide) (by decide) (by decide))]
  unfold addWeighted
  rw [if_neg (by decide)]

/-- C9 amended: no channel normalization is performed before blending;
whenever the template and artwork differ in channel depth the alignment
call never produces a composite (addWeighted raises a shape mismatch). -/
theorem c9_mismatch_never_blends (t a : Img) (Lt La : Poly) (alpha : ℚ)
    (hc : t.c ≠ a.c) (out : Img) :
    alignAndOverlay t a Lt La alpha ≠ .ok out := by
  intro h
  obtain ⟨sx, sy, tx, ty, ar, w2, hst, har, hwp, hblend⟩ :=
    align_ok_inv t a Lt La alpha out h
  obtain ⟨_, _, hw2c, _⟩ := warp_ok_shape ar tx ty t.w t.h w2 hwp
  have hac : ar.c = a.c := resize_ok_channels a sx sy ar har
  unfold addWeighted at hblend
  split at hblend
  · next hcond => exact hc (by rw [hcond.2.2, hw2c, hac])
  · simp at hblend

/-- C9 witness: the mismatched one- and three-channel pair never yields a
composite. -/
theorem c9_mismatch_never_blends_witness :
    imgT.c ≠ imgA3.c ∧
      alignAndOverlay imgT imgA3 sqPoly sqPoly (1/3) ≠ .ok imgT :=
  ⟨by decide, c9_mismatch_never_blends imgT imgA3 sqPoly sqPoly (1/3) (by decide) imgT⟩

/-- C10: every successful alignment call returns a composite whose height
and width equal the template image's, regardless of the artwork image's
dimensions; in the embedding all cv2 operations allocate fresh buffers, so
the two input images are left unchanged by construction. -/
theorem c10_output_template_dims (t a : Img) (Lt La : Poly) (alpha : ℚ)
    (out : Img) (h : alignAndOverlay t a Lt La alpha = .ok out) :
    out.h = t.h ∧ out.w = t.w := by
  obtain ⟨sx, sy, tx, ty, ar, w2, hst, har, hwp, hblend⟩ :=
    align_ok_inv t a Lt La alpha out h
  unfold addWeighted at hblend
  split at hblend
  · rw [Except.ok.injEq] at hblend
    subst hblend
    exact ⟨rfl, rfl⟩
  · simp at hblend

/-- C10 witness: a concrete successful alignment returns a composite with
the template's one-by-one dimensions. -/
theorem c10_output_template_dims_witness :
    alignAndOverlay imgT imgA sqPoly sqPoly (1/2) = .ok ⟨1, 1, 1, [4]⟩ ∧
      (Img.mk 1 1 1 [4]).h = imgT.h ∧ (Img.mk 1 1 1 [4]).w = imgT.w := by
  have hok : alignAndOverlay imgT imgA sqPoly sqPoly (1/2) = .ok ⟨1, 1, 1, [4]⟩ := by
    rw [align_eq_of imgT imgA sqPoly sqPoly (1/2) 1 1 0 0 imgA imgA
      (alignScaleTrans_identity sqPoly sqPoly rfl (by decide) (by decide))
      (resize_one imgA (by decide) (by decide) (by decide))
      (warp_id imgA (by decide) (by decide) (by decide))]
    unfold addWeighted
    rw [if_pos (by decide)]
    norm_num [imgT, imgA]
  exact ⟨hok,
    c10_output_template_dims imgT imgA sqPoly sqPoly (1/2) ⟨1, 1, 1, [4]⟩ hok⟩

end ComparePDF
